import Mathlib

/-!
Verification of the multiplayer Tetris server core (`src/rust/src/main.rs`).

The embedding models the data and functions of `main.rs` directly:

* `Pivot`, `PieceState`, `BlockState` mirror the structs of the
  `piece_state` module (that module is not under src/; the spec fixes the
  fields: integer pivot coordinates, shape id, rotation, player id).
* The `slab::Slab<PieceState>` player registry is modelled as a list of
  optional slots: `contains`/`get` look a slot up by index, `insert`
  fills the first vacant slot (appending when full), `remove` vacates a
  slot.  This matches the slab crate semantics used by `main.rs`.
* The settled board (`fallen_blocks : HashMap<Pivot, u8>`) is modelled as
  an association list where a fresh insert shadows an older binding, so
  `lookupB` has exactly the HashMap lookup/replace observable behaviour.
* `get_shape`, `read_block` (module `tetris`) and
  `fallen_blocks_collision` are external to `main.rs`: the shape table and
  collision engine are taken as parameters, exactly as `main.rs` only
  calls them.
* Handler side effects (pings, arming timeouts, closing) are recorded in
  an `Effect` trace; log lines are recorded as a `LogKind` value.
-/

/-- Cell coordinate, also used as settled-board key (module `piece_state`;
fields are the integer x/y of the spec data model). -/
structure Pivot where
  x : Int
  y : Int
deriving DecidableEq, Repr

/-- State of one falling piece (module `piece_state`). -/
structure PieceState where
  shape : Nat
  pivot : Pivot
  rotation : Nat
  player_id : Nat
deriving DecidableEq, Repr

/-- One settled cell as broadcast in `fallen_blocks` (module `piece_state`). -/
structure BlockState where
  position : Pivot
  original_shape : Nat
deriving DecidableEq, Repr

/-- Modelled from the spec: the `input` module is not under src/.  A client
input event carries a requested action (shift left/right, rotate,
soft/hard drop per spec 4.2). -/
inductive KeyAction where
  | left
  | right
  | rotate
  | softDrop
  | hardDrop
deriving DecidableEq, Repr

/-- Modelled from the spec: `KeyState` of the `input` module — a player id
plus the requested action. -/
structure KeyState where
  player_id : Nat
  action : KeyAction
deriving DecidableEq, Repr

/-- The player registry: `slab::Slab<PieceState>` as a list of slots. -/
def Slab := List (Option PieceState)
deriving DecidableEq

/-- The settled board: `HashMap<Pivot, u8>` as an association list (latest
binding wins on lookup). -/
def Board := List (Pivot × Nat)
deriving DecidableEq

namespace Slab

/-- Slot lookup: `slab.get(key)` flattened with occupancy. -/
def getS (id : Nat) (s : Slab) : Option PieceState :=
  match List.get? s id with
  | some o => o
  | none => none

/-- `slab.contains(key)`: the slot exists and is occupied. -/
def containsS (id : Nat) (s : Slab) : Bool :=
  (getS id s).isSome

/-- `slab.insert(v)`: fill the first vacant slot (append when none is
vacant) and return the chosen key. -/
def insertS (p : PieceState) : Slab → Nat × Slab
  | [] => (0, [some p])
  | none :: rest => (0, some p :: rest)
  | some q :: rest =>
      let r := insertS p rest
      (r.1 + 1, some q :: r.2)

/-- Vacate a slot.  (`slab.remove` on a vacant key panics in Rust; the
handlers only remove present players, and an out-of-range `List.set` is
the identity here.) -/
def removeS (id : Nat) (s : Slab) : Slab :=
  s.set id none

/-- The live pieces in slot order — what `game_frame` collects into the
broadcast `piece_states` list. -/
def pieceStatesOf (s : Slab) : List PieceState :=
  s.filterMap (fun o => o)

end Slab

open Slab

namespace Board

/-- `HashMap::insert` (observable behaviour: new binding shadows old). -/
def insertB (k : Pivot) (v : Nat) (b : Board) : Board :=
  (k, v) :: b

/-- `HashMap` lookup. -/
def lookupB (b : Board) (k : Pivot) : Option Nat :=
  (b.find? (fun e => decide (e.1 = k))).map Prod.snd

end Board

open Board

/-- ws close codes distinguished by `on_close` (Normal, Away, and the
rest, including Error as sent by `on_timeout`). -/
inductive CloseCode where
  | normal
  | away
  | error
  | protocol
  | abnormal
deriving DecidableEq, Repr

/-- Effects a handler performs through the ws `Sender`. -/
inductive Effect where
  | ping
  | armTimeout (millis : Nat)
  | closeConn (code : CloseCode)
deriving DecidableEq, Repr

/-- The log line `on_close` prints, by kind. -/
inductive LogKind where
  | doneWithConnection
  | leavingSite
  | encounteredError
deriving DecidableEq, Repr

/-- `TIMEOUT_MILLIS` of main.rs. -/
def TIMEOUT_MILLIS : Nat := 10000

/-- `next_piece` of main.rs: `rng.gen_range(0, 7)`.  The rand crate is
external; modelled from the spec: an opaque provider returning a ShapeId
in [0,7), here driven by a seed. -/
def next_piece (seed : Nat) : Nat :=
  seed % 7

/-- `remove_player` of main.rs: `players.remove(player_id)`. -/
def remove_player (player_id : Nat) (players : Slab) : Slab :=
  removeS player_id players

/-- `remove_from_play` of main.rs: the body only prints
`"remove_from_play called on {id}"`; the registry is untouched (the
`remove_player` call is commented out in the source). -/
def remove_from_play (_player_id : Nat) (players : Slab) : Slab :=
  players

/-- The init message `on_open` sends back. -/
structure InitMsg where
  player_id : Nat
  piece_type : Nat
deriving DecidableEq, Repr

/-- The `PieceState` literal `on_open` builds for a new player: shape
from `next_piece`, spawn pivot (5,5), rotation 0. -/
def spawnPiece (id seed : Nat) : PieceState :=
  { shape := next_piece seed
    pivot := { x := 5, y := 5 }
    rotation := 0
    player_id := id }

/-- `on_open` of main.rs.  `id` is the connection token; `seed` drives the
external `next_piece` draw.  If the registry already holds the identity,
resend its shape; otherwise insert a fresh `PieceState` with spawn pivot
(5,5) and rotation 0.  Either way a liveness timeout is armed. -/
def on_open (id : Nat) (seed : Nat) (players : Slab) :
    Slab × InitMsg × List Effect :=
  match getS id players with
  | some p =>
      (players, ⟨id, p.shape⟩, [Effect.armTimeout TIMEOUT_MILLIS])
  | none =>
      let piece : PieceState := spawnPiece id seed
      ((insertS piece players).2, ⟨id, piece.shape⟩,
        [Effect.armTimeout TIMEOUT_MILLIS])

/-- Modelled from the spec: `update_state` lives in the `tetris` module,
absent from src/.  Spec 4.2: look the player up by `input.playerId`
(no-op when absent), compute the candidate move and commit it only when
collision-free; the candidate/collision computation is abstracted into
`try_move`, and only the looked-up entry is rewritten. -/
def update_state (try_move : KeyAction → PieceState → PieceState)
    (players : Slab) (input : KeyState) : Slab :=
  match getS input.player_id players with
  | some p => players.set input.player_id (some (try_move input.action p))
  | none => players

/-- `on_message` of main.rs: always re-arm the liveness timeout, then, if
the text parsed as a `KeyState` (`parsed`), overwrite its `player_id`
with the connection token and run `update_state`; otherwise only log. -/
def on_message (try_move : KeyAction → PieceState → PieceState)
    (token : Nat) (parsed : Option KeyState) (players : Slab) :
    Slab × List Effect :=
  (match parsed with
   | some player_input =>
       update_state try_move players { player_input with player_id := token }
   | none => players,
   [Effect.armTimeout TIMEOUT_MILLIS])

/-- `on_close` of main.rs: print a code-dependent line, then
`remove_player` — on every close code. -/
def on_close (player_id : Nat) (code : CloseCode) (players : Slab) :
    LogKind × Slab :=
  (match code with
   | CloseCode.normal => LogKind.doneWithConnection
   | CloseCode.away => LogKind.leavingSite
   | _ => LogKind.encounteredError,
   remove_player player_id players)

/-- `on_timeout` of main.rs: ping; on success re-arm the timeout, on
failure close with the Error code.  `pingOk` is the result of the
external send. -/
def on_timeout (pingOk : Bool) : List Effect :=
  Effect.ping ::
    (if pingOk then [Effect.armTimeout TIMEOUT_MILLIS]
     else [Effect.closeConn CloseCode.error])

/-- State of the per-client timeout tracking: the handle stored in
`self.timeout`, and the handles of timers the event loop still has
pending for this client. -/
structure TimerState where
  tracked : Option Nat
  pending : List Nat
deriving DecidableEq, Repr

/-- `on_new_timeout` of main.rs: take the tracked handle, try to cancel
it (`cancelOk` is the result of the external `Sender::cancel`; on failure
the old timer stays pending, as the source comments note), then track the
new handle. -/
def on_new_timeout (st : TimerState) (handle : Nat) (cancelOk : Bool) :
    TimerState :=
  match st.tracked with
  | some t =>
      { tracked := some handle,
        pending := if cancelOk then st.pending.erase t else st.pending }
  | none => { tracked := some handle, pending := st.pending }

/-- Timer events for one connection: `arm h c` is `Sender::timeout`
scheduling pending handle `h` followed by the `on_new_timeout` callback
whose cancel attempt returns `c`; `fire h` is the event loop firing and
discarding a pending timer. -/
inductive TEvent where
  | arm (handle : Nat) (cancelOk : Bool)
  | fire (handle : Nat)
deriving DecidableEq, Repr

/-- One timer event applied to the timer state. -/
def stepTimer (st : TimerState) : TEvent → TimerState
  | TEvent.arm h cOk => on_new_timeout { st with pending := h :: st.pending } h cOk
  | TEvent.fire h => { st with pending := st.pending.erase h }

/-- Run a sequence of timer events. -/
def runTimer (st : TimerState) : List TEvent → TimerState
  | [] => st
  | e :: es => runTimer (stepTimer st e) es

/-- Timer state of a fresh connection. -/
def initTimer : TimerState := { tracked := none, pending := [] }

/-- The handles armed along a trace, in order. -/
def armHandles : List TEvent → List Nat
  | [] => []
  | TEvent.arm h _ :: es => h :: armHandles es
  | TEvent.fire _ :: es => armHandles es

/-- Whether every cancel attempt in the trace succeeded. -/
def allCancelOk : List TEvent → Bool
  | [] => true
  | TEvent.arm _ cOk :: es => cOk && allCancelOk es
  | TEvent.fire _ :: es => allCancelOk es

section Tetris

variable (get_shape : Nat → List Bool)
variable (read_block : List Bool → Nat → Nat → Nat → Bool)
variable (fallen_blocks_collision : PieceState → Board → Bool)

/-- The (y outer, x inner) traversal order of the nested loops in
`add_fallen_blocks`. -/
def cellPairs (width : Nat) : List (Nat × Nat) :=
  (List.range width).flatMap (fun y => (List.range width).map (fun x => (x, y)))

/-- `add_fallen_blocks` of main.rs: expand the piece at its current pivot
through the shape table and insert every occupied absolute cell into the
settled board with the piece shape as value. -/
def add_fallen_blocks (piece : PieceState) (fallen_blocks : Board) : Board :=
  let this_shape := get_shape piece.shape
  let width : Nat := if this_shape.length = 9 then 3 else 4
  (cellPairs width).foldl
    (fun b xy =>
      if read_block this_shape xy.1 xy.2 piece.rotation then
        insertB { x := (xy.1 : Int) + piece.pivot.x,
                  y := (xy.2 : Int) + piece.pivot.y } piece.shape b
      else b)
    fallen_blocks

/-- The iteration body of `shift_pieces`: walk the slots in key order from
index `i`, threading the board and collecting keys of landed pieces. -/
def shiftLoop (i : Nat) :
    List (Option PieceState) → Board →
      List (Option PieceState) × Board × List Nat
  | [], b => ([], b, [])
  | none :: rest, b =>
      let r := shiftLoop (i + 1) rest b
      (none :: r.1, r.2)
  | some player :: rest, b =>
      let player_copy : PieceState :=
        { player with pivot := { player.pivot with y := player.pivot.y + 1 } }
      if fallen_blocks_collision player_copy b then
        let b1 := add_fallen_blocks get_shape read_block player b
        let r := shiftLoop (i + 1) rest b1
        (some player :: r.1, r.2.1, i :: r.2.2)
      else
        let r := shiftLoop (i + 1) rest b
        (some player_copy :: r.1, r.2)

/-- `shift_pieces` of main.rs: for every live piece, check the one-down
candidate; landed pieces dump their (unshifted) cells into the board and
their keys are collected, the rest move down one; afterwards
`remove_from_play` runs on each collected key. -/
def shift_pieces (players : Slab) (fallen_blocks : Board) : Slab × Board :=
  let r := shiftLoop get_shape read_block fallen_blocks_collision 0
    players fallen_blocks
  (r.2.2.foldl (fun s id => remove_from_play id s) r.1, r.2.1)

end Tetris

/-- The downward candidate `shift_pieces` builds: `player_copy.pivot.y += 1`. -/
def shiftDown (p : PieceState) : PieceState :=
  { p with pivot := { p.pivot with y := p.pivot.y + 1 } }

/-- A registry whose only live piece is `p`, surrounded by `k` and `m`
vacant slots. -/
def onePiece (k : Nat) (p : PieceState) (m : Nat) : Slab :=
  List.replicate k none ++ some p :: List.replicate m none

/-!  Concrete stand-ins for the external `tetris` module, used to evaluate
the main.rs functions on closed inputs: a table whose every shape is a
3×3 grid with a single block at local (0,0), row-major bit reading, and a
collision that fires when the pivot reaches row 20. -/

/-- A concrete shape table: 9 entries (3×3), one block at index 0. -/
def sampleShapeTable : Nat → List Bool :=
  fun _ => [true, false, false, false, false, false, false, false, false]

/-- Concrete row-major bit lookup, rotation-independent. -/
def sampleReadBlock : List Bool → Nat → Nat → Nat → Bool :=
  fun shape x y _ => shape.getD (3 * y + x) false

/-- Concrete collision: the candidate collides when its pivot has reached
row 20 (a floor). -/
def floorCollision : PieceState → Board → Bool :=
  fun pc _ => decide (20 ≤ pc.pivot.y)

/-- A concrete piece one row above the `floorCollision` floor. -/
def samplePiece : PieceState :=
  { shape := 3, pivot := { x := 5, y := 19 }, rotation := 0, player_id := 0 }

/-! ### Helper lemmas -/

theorem getS_insertS (p : PieceState) (s : Slab) :
    getS (insertS p s).1 (insertS p s).2 = some p := by
  induction s with
  | nil => rfl
  | cons o rest ih =>
      cases o with
      | none => rfl
      | some q => simpa [insertS, getS, List.get?] using ih

theorem getS_set_ne (j i : Nat) (h : j ≠ i) (v : Option PieceState)
    (s : Slab) : getS j (s.set i v) = getS j s := by
  induction s generalizing i j with
  | nil => rfl
  | cons o rest ih =>
      cases i with
      | zero =>
          cases j with
          | zero => exact absurd rfl h
          | succ n => rfl
      | succ i₀ =>
          cases j with
          | zero => rfl
          | succ n =>
              simpa [List.set, getS, List.get?] using
                ih n i₀ (fun hh => h (by simpa using hh))

theorem getS_removeS (id : Nat) (s : Slab) :
    getS id (removeS id s) = none := by
  induction s generalizing id with
  | nil => rfl
  | cons o rest ih =>
      cases id with
      | zero => rfl
      | succ n => simpa [removeS, List.set, getS, List.get?] using ih n

theorem lookupB_insert_self (k : Pivot) (v : Nat) (b : Board) :
    lookupB (insertB k v b) k = some v := by
  simp [lookupB, insertB, List.find?]

theorem lookupB_insert_ne (k k' : Pivot) (v : Nat) (b : Board)
    (h : k' ≠ k) : lookupB (insertB k v b) k' = lookupB b k' := by
  have : decide (k = k') = false := by
    simp [decide_eq_false_iff_not]
    exact fun hh => h hh.symm
  simp [lookupB, insertB, List.find?, this]

theorem mem_cellPairs (x y w : Nat) :
    (x, y) ∈ cellPairs w ↔ x < w ∧ y < w := by
  constructor
  · intro hmem
    rcases List.mem_flatMap.mp hmem with ⟨y₀, hy₀, hx⟩
    rcases List.mem_map.mp hx with ⟨x₀, hx₀, hpair⟩
    cases hpair
    exact ⟨List.mem_range.mp hx₀, List.mem_range.mp hy₀⟩
  · intro ⟨hx, hy⟩
    exact List.mem_flatMap.mpr
      ⟨y, List.mem_range.mpr hy,
        List.mem_map.mpr ⟨x, List.mem_range.mpr hx, rfl⟩⟩

theorem lookup_foldl_or (val : Nat) (f : Board → (Nat × Nat) → Board)
    (hf : ∀ b xy, f b xy = b ∨ ∃ k, f b xy = insertB k val b) :
    ∀ (pairs : List (Nat × Nat)) (b : Board) (key : Pivot),
      lookupB (pairs.foldl f b) key = some val ∨
      lookupB (pairs.foldl f b) key = lookupB b key := by
  intro pairs
  induction pairs with
  | nil => intro b key; exact Or.inr rfl
  | cons xy rest ih =>
      intro b key
      rcases ih (f b xy) key with h1 | h1
      · exact Or.inl (by simpa [List.foldl] using h1)
      · rcases hf b xy with h2 | ⟨k, h2⟩
        · rw [List.foldl, h1, h2]
          exact Or.inr rfl
        · by_cases hkey : key = k
          · subst hkey
            refine Or.inl ?_
            rw [List.foldl, h1, h2]
            exact lookupB_insert_self key val b
          · refine Or.inr ?_
            rw [List.foldl, h1, h2]
            exact lookupB_insert_ne k key val b hkey

theorem lookup_foldl_mem (val : Nat) (keyOf : Nat × Nat → Pivot)
    (P : Nat × Nat → Prop) (f : Board → (Nat × Nat) → Board)
    (hf : ∀ b xy, f b xy = b ∨ ∃ k, f b xy = insertB k val b)
    (hf2 : ∀ b xy, P xy → f b xy = insertB (keyOf xy) val b) :
    ∀ (pairs : List (Nat × Nat)) (b : Board) (xy : Nat × Nat),
      xy ∈ pairs → P xy →
      lookupB (pairs.foldl f b) (keyOf xy) = some val := by
  intro pairs
  induction pairs with
  | nil => intro b xy hmem; exact absurd hmem (List.not_mem_nil xy)
  | cons a rest ih =>
      intro b xy hmem hp
      rcases List.mem_cons.mp hmem with heq | hmem₀
      · subst heq
        rw [List.foldl, hf2 b xy hp]
        rcases lookup_foldl_or val f hf rest (insertB (keyOf xy) val b)
            (keyOf xy) with h | h
        · exact h
        · rw [h]; exact lookupB_insert_self (keyOf xy) val b
      · exact (by simpa [List.foldl] using ih (f b a) xy hmem₀ hp)

/-- The loop body of `add_fallen_blocks`, factored out for reasoning. -/
def fallenStep (gs : Nat → List Bool)
    (rb : List Bool → Nat → Nat → Nat → Bool) (p : PieceState)
    (bb : Board) (xy : Nat × Nat) : Board :=
  if rb (gs p.shape) xy.1 xy.2 p.rotation then
    insertB { x := (xy.1 : Int) + p.pivot.x, y := (xy.2 : Int) + p.pivot.y }
      p.shape bb
  else bb

theorem add_fallen_blocks_eq_foldl (gs : Nat → List Bool)
    (rb : List Bool → Nat → Nat → Nat → Bool) (p : PieceState) (b : Board) :
    add_fallen_blocks gs rb p b
      = (cellPairs (if (gs p.shape).length = 9 then 3 else 4)).foldl
          (fallenStep gs rb p) b := rfl

theorem add_fallen_blocks_cells (gs : Nat → List Bool)
    (rb : List Bool → Nat → Nat → Nat → Bool) (p : PieceState) (b : Board)
    (x y : Nat)
    (hx : x < if (gs p.shape).length = 9 then 3 else 4)
    (hy : y < if (gs p.shape).length = 9 then 3 else 4)
    (hread : rb (gs p.shape) x y p.rotation = true) :
    lookupB (add_fallen_blocks gs rb p b)
      { x := (x : Int) + p.pivot.x, y := (y : Int) + p.pivot.y }
      = some p.shape := by
  have hf : ∀ bb xy, fallenStep gs rb p bb xy = bb ∨
      ∃ k, fallenStep gs rb p bb xy = insertB k p.shape bb := by
    intro bb xy
    by_cases hrb : rb (gs p.shape) xy.1 xy.2 p.rotation
    · exact Or.inr ⟨{ x := (xy.1 : Int) + p.pivot.x,
                      y := (xy.2 : Int) + p.pivot.y },
        by simp [fallenStep, hrb]⟩
    · exact Or.inl (by simp [fallenStep, hrb])
  have hf2 : ∀ bb xy, rb (gs p.shape) xy.1 xy.2 p.rotation = true →
      fallenStep gs rb p bb xy
        = insertB { x := (xy.1 : Int) + p.pivot.x,
                    y := (xy.2 : Int) + p.pivot.y } p.shape bb := by
    intro bb xy hrb
    simp [fallenStep, hrb]
  rw [add_fallen_blocks_eq_foldl]
  exact lookup_foldl_mem p.shape
    (fun xy => { x := (xy.1 : Int) + p.pivot.x, y := (xy.2 : Int) + p.pivot.y })
    (fun xy => rb (gs p.shape) xy.1 xy.2 p.rotation = true)
    (fallenStep gs rb p) hf hf2 _ b (x, y)
    ((mem_cellPairs x y _).mpr ⟨hx, hy⟩) hread

theorem shiftLoop_replicate_none (gs : Nat → List Bool)
    (rb : List Bool → Nat → Nat → Nat → Bool)
    (coll : PieceState → Board → Bool) (k : Nat) :
    ∀ (i : Nat) (b : Board),
      shiftLoop gs rb coll i (List.replicate k none) b
        = (List.replicate k none, b, []) := by
  induction k with
  | zero => intro i b; rfl
  | succ n ih =>
      intro i b
      simp [List.replicate, shiftLoop, ih (i + 1) b]

theorem shiftLoop_onePiece_of_collide (gs : Nat → List Bool)
    (rb : List Bool → Nat → Nat → Nat → Bool)
    (coll : PieceState → Board → Bool) (p : PieceState) (b : Board)
    (h : coll (shiftDown p) b = true) (m : Nat) (k : Nat) :
    ∀ i : Nat,
      shiftLoop gs rb coll i (onePiece k p m) b
        = (onePiece k p m, add_fallen_blocks gs rb p b, [i + k]) := by
  have h' : coll { p with pivot := { p.pivot with y := p.pivot.y + 1 } } b
      = true := h
  induction k with
  | zero =>
      intro i
      simp [onePiece, shiftLoop, h',
        shiftLoop_replicate_none gs rb coll m (i + 1)]
      rfl
  | succ n ih =>
      intro i
      have harith : (i + 1) + n = i + (n + 1) := by omega
      simp [onePiece, List.replicate, shiftLoop] at ih ⊢
      rw [ih (i + 1), harith]
      exact ⟨rfl, rfl⟩

theorem shiftLoop_onePiece_of_free (gs : Nat → List Bool)
    (rb : List Bool → Nat → Nat → Nat → Bool)
    (coll : PieceState → Board → Bool) (p : PieceState) (b : Board)
    (h : coll (shiftDown p) b = false) (m : Nat) (k : Nat) :
    ∀ i : Nat,
      shiftLoop gs rb coll i (onePiece k p m) b
        = (onePiece k (shiftDown p) m, b, []) := by
  have h' : coll { p with pivot := { p.pivot with y := p.pivot.y + 1 } } b
      = false := h
  induction k with
  | zero =>
      intro i
      simp [onePiece, shiftLoop, h', shiftDown,
        shiftLoop_replicate_none gs rb coll m (i + 1)]
      rfl
  | succ n ih =>
      intro i
      simp [onePiece, List.replicate, shiftLoop] at ih ⊢
      rw [ih (i + 1)]
      exact ⟨rfl, rfl⟩

theorem foldl_remove_from_play (ids : List Nat) :
    ∀ s : Slab, ids.foldl (fun s id => remove_from_play id s) s = s := by
  induction ids with
  | nil => intro s; rfl
  | cons a t ih => intro s; exact ih s

theorem shift_pieces_onePiece_of_collide (gs : Nat → List Bool)
    (rb : List Bool → Nat → Nat → Nat → Bool)
    (coll : PieceState → Board → Bool) (p : PieceState) (b : Board)
    (h : coll (shiftDown p) b = true) (k m : Nat) :
    shift_pieces gs rb coll (onePiece k p m) b
      = (onePiece k p m, add_fallen_blocks gs rb p b) := by
  unfold shift_pieces
  rw [shiftLoop_onePiece_of_collide gs rb coll p b h m k 0]
  simp [foldl_remove_from_play, remove_from_play]

theorem shift_pieces_onePiece_of_free (gs : Nat → List Bool)
    (rb : List Bool → Nat → Nat → Nat → Bool)
    (coll : PieceState → Board → Bool) (p : PieceState) (b : Board)
    (h : coll (shiftDown p) b = false) (k m : Nat) :
    shift_pieces gs rb coll (onePiece k p m) b
      = (onePiece k (shiftDown p) m, b) := by
  unfold shift_pieces
  rw [shiftLoop_onePiece_of_free gs rb coll p b h m k 0]
  simp [foldl_remove_from_play]

/-- The settled board as it stands when slot `j` comes up during the
gravity pass: `shift_pieces` threads the board through its iteration, so
pieces that land earlier in the pass are visible to the collision checks
of later pieces.  `boardUpTo j` folds the first `j` slots. -/
def boardUpTo (gs : Nat → List Bool)
    (rb : List Bool → Nat → Nat → Nat → Bool)
    (coll : PieceState → Board → Bool) :
    Nat → List (Option PieceState) → Board → Board
  | 0, _, b => b
  | _ + 1, [], b => b
  | j + 1, none :: rest, b => boardUpTo gs rb coll j rest b
  | j + 1, some p :: rest, b =>
      if coll (shiftDown p) b then
        boardUpTo gs rb coll j rest (add_fallen_blocks gs rb p b)
      else boardUpTo gs rb coll j rest b

theorem shiftLoop_board_eq_boardUpTo (gs : Nat → List Bool)
    (rb : List Bool → Nat → Nat → Nat → Bool)
    (coll : PieceState → Board → Bool) (s : List (Option PieceState)) :
    ∀ (b : Board) (i : Nat),
      (shiftLoop gs rb coll i s b).2.1
        = boardUpTo gs rb coll s.length s b := by
  induction s with
  | nil => intro b i; rfl
  | cons o rest ih =>
      intro b i
      cases o with
      | none =>
          simpa [shiftLoop, boardUpTo] using ih b (i + 1)
      | some p =>
          by_cases h : coll (shiftDown p) b = true
          · have h' : coll { p with pivot := { p.pivot with y := p.pivot.y + 1 } } b
                = true := h
            simpa [shiftLoop, boardUpTo, h', h] using
              ih (add_fallen_blocks gs rb p b) (i + 1)
          · have hf : coll (shiftDown p) b = false := Bool.eq_false_iff.mpr h
            have h' : coll { p with pivot := { p.pivot with y := p.pivot.y + 1 } } b
                = false := hf
            simpa [shiftLoop, boardUpTo, h', hf] using ih b (i + 1)

theorem shiftLoop_slot_outcome (gs : Nat → List Bool)
    (rb : List Bool → Nat → Nat → Nat → Bool)
    (coll : PieceState → Board → Bool) (s : List (Option PieceState)) :
    ∀ (b : Board) (i j : Nat) (p : PieceState), getS j s = some p →
      (coll (shiftDown p) (boardUpTo gs rb coll j s b) = true →
        getS j (shiftLoop gs rb coll i s b).1 = some p) ∧
      (coll (shiftDown p) (boardUpTo gs rb coll j s b) = false →
        getS j (shiftLoop gs rb coll i s b).1 = some (shiftDown p)) := by
  induction s with
  | nil => intro b i j p hget; simp [getS] at hget
  | cons o rest ih =>
      intro b i j p hget
      cases j with
      | zero =>
          cases o with
          | none => simp [getS] at hget
          | some q =>
              have hq : q = p := by simpa [getS] using hget
              subst hq
              constructor
              · intro hc
                have h' : coll { q with pivot := { q.pivot with y := q.pivot.y + 1 } } b
                    = true := by simpa [boardUpTo] using hc
                simp [shiftLoop, h', getS]
              · intro hc
                have h' : coll { q with pivot := { q.pivot with y := q.pivot.y + 1 } } b
                    = false := by simpa [boardUpTo] using hc
                simp [shiftLoop, h', getS, shiftDown]
      | succ j₀ =>
          have hget' : getS j₀ rest = some p := hget
          cases o with
          | none =>
              have hb : boardUpTo gs rb coll (j₀ + 1) (none :: rest) b
                  = boardUpTo gs rb coll j₀ rest b := rfl
              constructor
              · intro hc
                rw [hb] at hc
                have hrest := (ih b (i + 1) j₀ p hget').1 hc
                have hred : (shiftLoop gs rb coll i (none :: rest) b).1
                    = none :: (shiftLoop gs rb coll (i + 1) rest b).1 := rfl
                rw [hred]
                exact hrest
              · intro hc
                rw [hb] at hc
                have hrest := (ih b (i + 1) j₀ p hget').2 hc
                have hred : (shiftLoop gs rb coll i (none :: rest) b).1
                    = none :: (shiftLoop gs rb coll (i + 1) rest b).1 := rfl
                rw [hred]
                exact hrest
          | some q =>
              by_cases hcq : coll (shiftDown q) b = true
              · have h' : coll { q with pivot := { q.pivot with y := q.pivot.y + 1 } } b
                    = true := hcq
                have hb : boardUpTo gs rb coll (j₀ + 1) (some q :: rest) b
                    = boardUpTo gs rb coll j₀ rest
                        (add_fallen_blocks gs rb q b) := by
                  simp [boardUpTo, hcq]
                have hred : (shiftLoop gs rb coll i (some q :: rest) b).1
                    = some q :: (shiftLoop gs rb coll (i + 1) rest
                        (add_fallen_blocks gs rb q b)).1 := by
                  simp [shiftLoop, h']
                constructor
                · intro hc
                  rw [hb] at hc
                  rw [hred]
                  exact (ih (add_fallen_blocks gs rb q b) (i + 1) j₀ p hget').1 hc
                · intro hc
                  rw [hb] at hc
                  rw [hred]
                  exact (ih (add_fallen_blocks gs rb q b) (i + 1) j₀ p hget').2 hc
              · have hf : coll (shiftDown q) b = false := Bool.eq_false_iff.mpr hcq
                have h' : coll { q with pivot := { q.pivot with y := q.pivot.y + 1 } } b
                    = false := hf
                have hb : boardUpTo gs rb coll (j₀ + 1) (some q :: rest) b
                    = boardUpTo gs rb coll j₀ rest b := by
                  simp [boardUpTo, hf]
                have hred : (shiftLoop gs rb coll i (some q :: rest) b).1
                    = some (shiftDown q)
                        :: (shiftLoop gs rb coll (i + 1) rest b).1 := by
                  simp [shiftLoop, h', shiftDown]
                constructor
                · intro hc
                  rw [hb] at hc
                  rw [hred]
                  exact (ih b (i + 1) j₀ p hget').1 hc
                · intro hc
                  rw [hb] at hc
                  rw [hred]
                  exact (ih b (i + 1) j₀ p hget').2 hc

theorem boardUpTo_step (gs : Nat → List Bool)
    (rb : List Bool → Nat → Nat → Nat → Bool)
    (coll : PieceState → Board → Bool) (s : List (Option PieceState)) :
    ∀ (b : Board) (j : Nat) (p : PieceState), getS j s = some p →
      (coll (shiftDown p) (boardUpTo gs rb coll j s b) = true →
        boardUpTo gs rb coll (j + 1) s b
          = add_fallen_blocks gs rb p (boardUpTo gs rb coll j s b)) ∧
      (coll (shiftDown p) (boardUpTo gs rb coll j s b) = false →
        boardUpTo gs rb coll (j + 1) s b
          = boardUpTo gs rb coll j s b) := by
  induction s with
  | nil => intro b j p hget; simp [getS] at hget
  | cons o rest ih =>
      intro b j p hget
      cases j with
      | zero =>
          cases o with
          | none => simp [getS] at hget
          | some q =>
              have hq : q = p := by simpa [getS] using hget
              subst hq
              constructor
              · intro hc
                have hc0 : coll (shiftDown q) b = true := by
                  simpa [boardUpTo] using hc
                simp [boardUpTo, hc0]
              · intro hc
                have hc0 : coll (shiftDown q) b = false := by
                  simpa [boardUpTo] using hc
                simp [boardUpTo, hc0]
      | succ j₀ =>
          have hget' : getS j₀ rest = some p := hget
          cases o with
          | none =>
              simpa [boardUpTo] using ih b j₀ p hget'
          | some q =>
              by_cases hcq : coll (shiftDown q) b = true
              · simpa [boardUpTo, hcq] using
                  ih (add_fallen_blocks gs rb q b) j₀ p hget'
              · have hf : coll (shiftDown q) b = false := Bool.eq_false_iff.mpr hcq
                simpa [boardUpTo, hf] using ih b j₀ p hget'

/-- Invariant tying a connection's timer state to the handles armed so
far: every pending timer is the tracked one, at most one is pending, and
the tracked handle was armed earlier. -/
def TimerInv (armed : List Nat) (st : TimerState) : Prop :=
  (∀ h ∈ st.pending, st.tracked = some h) ∧
  st.pending.length ≤ 1 ∧
  (∀ t, st.tracked = some t → t ∈ armed)

theorem pending_shape (st : TimerState)
    (h1 : ∀ h ∈ st.pending, st.tracked = some h)
    (h2 : st.pending.length ≤ 1) :
    st.pending = [] ∨ ∃ t, st.tracked = some t ∧ st.pending = [t] := by
  cases hp : st.pending with
  | nil => exact Or.inl rfl
  | cons a rest =>
      have ha : st.tracked = some a :=
        h1 a (by rw [hp]; exact List.mem_cons_self a rest)
      cases rest with
      | nil => exact Or.inr ⟨a, ha, rfl⟩
      | cons c d =>
          exfalso
          rw [hp] at h2
          simp [List.length_cons] at h2

theorem arm_step_pending (st : TimerState) (h : Nat)
    (h1 : ∀ x ∈ st.pending, st.tracked = some x)
    (h2 : st.pending.length ≤ 1)
    (hne : ∀ t, st.tracked = some t → h ≠ t) :
    stepTimer st (TEvent.arm h true)
      = { tracked := some h, pending := [h] } := by
  rcases pending_shape st h1 h2 with hp | ⟨t, ht, hp⟩
  · cases htr : st.tracked with
    | none => simp [stepTimer, on_new_timeout, htr, hp]
    | some t =>
        have hht : h ≠ t := hne t htr
        simp [stepTimer, on_new_timeout, htr, hp, List.erase_cons, hht]
  · have hht : h ≠ t := hne t ht
    simp [stepTimer, on_new_timeout, ht, hp, List.erase_cons, hht]

theorem runTimer_inv (es : List TEvent) :
    ∀ (st : TimerState) (armed : List Nat),
      TimerInv armed st → allCancelOk es = true →
      (armed ++ armHandles es).Nodup →
      TimerInv (armed ++ armHandles es) (runTimer st es) := by
  induction es with
  | nil => intro st armed hinv _ _; simpa [armHandles, runTimer] using hinv
  | cons e rest ih =>
      intro st armed hinv hok hnd
      cases e with
      | arm h c =>
          have hc : c = true ∧ allCancelOk rest = true := by
            simpa [allCancelOk, Bool.and_eq_true] using hok
          obtain ⟨hc1, hc2⟩ := hc
          subst hc1
          simp only [armHandles] at hnd ⊢
          have hfresh : h ∉ armed := by
            intro hmem
            exact (List.nodup_append.mp hnd).2.2 hmem
              (List.mem_cons_self h (armHandles rest))
          have hinv' : TimerInv (armed ++ [h])
              (stepTimer st (TEvent.arm h true)) := by
            obtain ⟨h1, h2, h3⟩ := hinv
            rw [arm_step_pending st h h1 h2
              (fun t ht he => hfresh (he ▸ h3 t ht))]
            refine ⟨?_, ?_, ?_⟩
            · intro x hx
              simp only [List.mem_singleton] at hx
              subst hx
              rfl
            · simp
            · intro t ht
              simp only [Option.some.injEq] at ht
              subst ht
              simp
          have hnd' : ((armed ++ [h]) ++ armHandles rest).Nodup := by
            rw [← List.append_cons]
            exact hnd
          have := ih (stepTimer st (TEvent.arm h true)) (armed ++ [h])
            hinv' hc2 hnd'
          rw [List.append_cons]
          simpa [runTimer] using this
      | fire h =>
          have hok' : allCancelOk rest = true := by
            simpa [allCancelOk] using hok
          have hnd' : (armed ++ armHandles rest).Nodup := by
            simpa [armHandles] using hnd
          have hinv' : TimerInv armed (stepTimer st (TEvent.fire h)) := by
            obtain ⟨h1, h2, h3⟩ := hinv
            refine ⟨?_, ?_, ?_⟩
            · intro x hx
              exact h1 x (List.mem_of_mem_erase hx)
            · exact le_trans
                (List.Sublist.length_le (List.erase_sublist h st.pending)) h2
            · exact h3
          simpa [armHandles, runTimer] using
            ih (stepTimer st (TEvent.fire h)) armed hinv' hok' hnd'

/-! ### Claim theorems -/

/-- Claim C1 (evidence of the code bug): a piece whose downward candidate
collides does have its cells inserted into `fallen_blocks`, but it is NOT
removed from the player registry — `remove_from_play` only logs — so the
piece is still present in the `piece_states` of the next broadcast,
contrary to the settlement description. -/
theorem settled_piece_not_removed :
    floorCollision (shiftDown samplePiece) [] = true ∧
    lookupB (shift_pieces sampleShapeTable sampleReadBlock floorCollision
        [some samplePiece] []).2 { x := 5, y := 19 } = some 3 ∧
    pieceStatesOf (shift_pieces sampleShapeTable sampleReadBlock
        floorCollision [some samplePiece] []).1 = [samplePiece] ∧
    containsS 0 (shift_pieces sampleShapeTable sampleReadBlock
        floorCollision [some samplePiece] []).1 = true := by
  decide

/-- Claim C2: on a gravity step over an arbitrary registry, every live
piece `p` at slot `j` is checked as the candidate `p` with `pivot.y + 1`
against the board as it stands at that piece's turn (`boardUpTo j`, since
the loop threads the board through the pass); if the candidate collides,
the unshifted occupied cells of `p` are inserted into that board, each
absolute cell mapping to the piece's shape, and the slot keeps `p`
unmoved; if it does not collide, the slot's pivot advances by exactly one
row and the board is untouched at that step.  The step's final board is
the fold of these insertions over all slots. -/
theorem gravity_step_each_piece (gs : Nat → List Bool)
    (rb : List Bool → Nat → Nat → Nat → Bool)
    (coll : PieceState → Board → Bool) (s : Slab) (b : Board) :
    (shift_pieces gs rb coll s b).2 = boardUpTo gs rb coll s.length s b ∧
    ∀ (j : Nat) (p : PieceState), getS j s = some p →
      (coll (shiftDown p) (boardUpTo gs rb coll j s b) = true →
         getS j (shift_pieces gs rb coll s b).1 = some p ∧
         boardUpTo gs rb coll (j + 1) s b
           = add_fallen_blocks gs rb p (boardUpTo gs rb coll j s b) ∧
         ∀ x y : Nat, x < (if (gs p.shape).length = 9 then 3 else 4) →
           y < (if (gs p.shape).length = 9 then 3 else 4) →
           rb (gs p.shape) x y p.rotation = true →
           lookupB (boardUpTo gs rb coll (j + 1) s b)
             { x := (x : Int) + p.pivot.x, y := (y : Int) + p.pivot.y }
             = some p.shape) ∧
      (coll (shiftDown p) (boardUpTo gs rb coll j s b) = false →
         getS j (shift_pieces gs rb coll s b).1 = some (shiftDown p) ∧
         boardUpTo gs rb coll (j + 1) s b
           = boardUpTo gs rb coll j s b) := by
  have hslab : (shift_pieces gs rb coll s b).1
      = (shiftLoop gs rb coll 0 s b).1 := by
    simp [shift_pieces, foldl_remove_from_play]
  have hboard : (shift_pieces gs rb coll s b).2
      = (shiftLoop gs rb coll 0 s b).2.1 := rfl
  constructor
  · rw [hboard]
    exact shiftLoop_board_eq_boardUpTo gs rb coll s b 0
  · intro j p hget
    constructor
    · intro hc
      refine ⟨?_, ?_, ?_⟩
      · rw [hslab]
        exact (shiftLoop_slot_outcome gs rb coll s b 0 j p hget).1 hc
      · exact (boardUpTo_step gs rb coll s b j p hget).1 hc
      · intro x y hx hy hread
        rw [(boardUpTo_step gs rb coll s b j p hget).1 hc]
        exact add_fallen_blocks_cells gs rb p _ x y hx hy hread
    · intro hc
      refine ⟨?_, (boardUpTo_step gs rb coll s b j p hget).2 hc⟩
      rw [hslab]
      exact (shiftLoop_slot_outcome gs rb coll s b 0 j p hget).2 hc

/-- A second concrete piece, well above the `floorCollision` floor. -/
def pieceB : PieceState :=
  { shape := 2, pivot := { x := 1, y := 10 }, rotation := 0, player_id := 1 }

/-- Witness for `gravity_step_each_piece` on a two-piece registry: slot 0
lands (its candidate collides) and stays unmoved, slot 1 is free and
moves down one row. -/
theorem gravity_step_each_piece_witness :
    getS 0 [some samplePiece, some pieceB] = some samplePiece ∧
    floorCollision (shiftDown samplePiece)
      (boardUpTo sampleShapeTable sampleReadBlock floorCollision 0
        [some samplePiece, some pieceB] []) = true ∧
    getS 0 (shift_pieces sampleShapeTable sampleReadBlock floorCollision
        [some samplePiece, some pieceB] []).1 = some samplePiece ∧
    getS 1 [some samplePiece, some pieceB] = some pieceB ∧
    floorCollision (shiftDown pieceB)
      (boardUpTo sampleShapeTable sampleReadBlock floorCollision 1
        [some samplePiece, some pieceB] []) = false ∧
    getS 1 (shift_pieces sampleShapeTable sampleReadBlock floorCollision
        [some samplePiece, some pieceB] []).1 = some (shiftDown pieceB) :=
  ⟨rfl, by decide,
    (((gravity_step_each_piece sampleShapeTable sampleReadBlock
        floorCollision [some samplePiece, some pieceB] []).2 0 samplePiece
        rfl).1 (by decide)).1,
    rfl, by decide,
    (((gravity_step_each_piece sampleShapeTable sampleReadBlock
        floorCollision [some samplePiece, some pieceB] []).2 1 pieceB
        rfl).2 (by decide)).1⟩

/-- Claim C3 counterexample: closing with the Normal close code does NOT
leave the player registry unchanged — the player is removed. -/
theorem normal_close_changes_registry :
    containsS 0 [some samplePiece] = true ∧
    (on_close 0 CloseCode.normal [some samplePiece]).2 = [none] ∧
    containsS 0 (on_close 0 CloseCode.normal [some samplePiece]).2 = false := by
  decide

/-- Claim C3 (amended): on every close code — Normal and Away included —
the handler removes the player's PieceState from the registry after
logging; the close code only selects the logged line. -/
theorem close_always_removes (id : Nat) (code : CloseCode) (s : Slab) :
    (on_close id code s).2 = remove_player id s ∧
    containsS id (on_close id code s).2 = false ∧
    ((on_close id code s).1 = LogKind.doneWithConnection
      ↔ code = CloseCode.normal) ∧
    ((on_close id code s).1 = LogKind.leavingSite ↔ code = CloseCode.away) := by
  refine ⟨rfl, ?_, ?_, ?_⟩
  · show containsS id (remove_player id s) = false
    simp [containsS, remove_player, getS_removeS]
  · cases code <;> simp [on_close]
  · cases code <;> simp [on_close]

/-- Claim C4: when the connection identity is already in the registry,
`on_open` resends the stored piece type without allocating, and in the
open-then-reconnect round trip (with the slab giving the identity its
slot) the reconnect returns exactly the originally assigned type. -/
theorem reconnect_resends_piece_type (id seed seed2 : Nat) (s0 : Slab)
    (h0 : getS id s0 = none)
    (hk : (insertS (spawnPiece id seed) s0).1 = id) :
    (∀ (s : Slab) (q : PieceState), getS id s = some q →
       on_open id seed2 s
         = (s, ⟨id, q.shape⟩, [Effect.armTimeout TIMEOUT_MILLIS])) ∧
    (on_open id seed2 (on_open id seed s0).1).1 = (on_open id seed s0).1 ∧
    (on_open id seed2 (on_open id seed s0).1).2.1.piece_type
      = (on_open id seed s0).2.1.piece_type ∧
    (on_open id seed s0).2.1.piece_type = next_piece seed := by
  have hbranch : ∀ (s : Slab) (q : PieceState), getS id s = some q →
      on_open id seed2 s
        = (s, ⟨id, q.shape⟩, [Effect.armTimeout TIMEOUT_MILLIS]) := by
    intro s q hq
    simp [on_open, hq]
  have h1 : on_open id seed s0
      = ((insertS (spawnPiece id seed) s0).2,
         ⟨id, next_piece seed⟩, [Effect.armTimeout TIMEOUT_MILLIS]) := by
    simp [on_open, h0, spawnPiece]
  have hget : getS id (insertS (spawnPiece id seed) s0).2
      = some (spawnPiece id seed) := by
    have hgi := getS_insertS (spawnPiece id seed) s0
    rwa [hk] at hgi
  refine ⟨hbranch, ?_, ?_, ?_⟩
  · rw [h1]
    simp only
    rw [hbranch _ _ hget]
  · rw [h1]
    simp only
    rw [hbranch _ _ hget]
    rfl
  · rw [h1]

/-- Witness for `reconnect_resends_piece_type`: open then reconnect on an
empty registry. -/
theorem reconnect_resends_piece_type_witness :
    getS 0 ([] : Slab) = none ∧
    (insertS (spawnPiece 0 1) ([] : Slab)).1 = 0 ∧
    (on_open 0 6 (on_open 0 1 ([] : Slab)).1).2.1.piece_type = next_piece 1 :=
  ⟨rfl, rfl, by
    have h := reconnect_resends_piece_type 0 1 6 [] rfl rfl
    exact h.2.2.1.trans h.2.2.2⟩

/-- Claim C5: the state change of an inbound input message does not
depend on the client-supplied `player_id` — it is overwritten with the
connection token before `update_state` runs — and no slot other than the
token's is ever modified. -/
theorem input_player_id_server_overwritten
    (tm : KeyAction → PieceState → PieceState) (token : Nat) (s : Slab)
    (k1 k2 : KeyState) (hact : k1.action = k2.action) :
    on_message tm token (some k1) s = on_message tm token (some k2) s ∧
    ∀ j : Nat, j ≠ token →
      getS j (on_message tm token (some k1) s).1 = getS j s := by
  have hkey : ({ k1 with player_id := token } : KeyState)
      = { k2 with player_id := token } := by
    cases k1
    cases k2
    simp only at hact
    simp [hact]
  constructor
  · simp [on_message, hkey]
  · intro j hj
    show getS j (update_state tm s { k1 with player_id := token }) = getS j s
    unfold update_state
    cases hq : getS ({ k1 with player_id := token } : KeyState).player_id s with
    | none => rfl
    | some p => exact getS_set_ne j _ hj _ s

/-- Witness for `input_player_id_server_overwritten`: two payloads that
differ only in `player_id`. -/
theorem input_player_id_witness :
    (⟨5, KeyAction.left⟩ : KeyState).action
      = (⟨9, KeyAction.left⟩ : KeyState).action ∧
    on_message (fun _ q => q) 0 (some ⟨5, KeyAction.left⟩) [some samplePiece]
      = on_message (fun _ q => q) 0 (some ⟨9, KeyAction.left⟩)
          [some samplePiece] ∧
    (1 : Nat) ≠ 0 ∧
    getS 1 (on_message (fun _ q => q) 0 (some ⟨5, KeyAction.left⟩)
        [some samplePiece]).1
      = getS 1 [some samplePiece] :=
  ⟨rfl,
    (input_player_id_server_overwritten (fun _ q => q) 0 [some samplePiece]
      ⟨5, KeyAction.left⟩ ⟨9, KeyAction.left⟩ rfl).1,
    by decide,
    (input_player_id_server_overwritten (fun _ q => q) 0 [some samplePiece]
      ⟨5, KeyAction.left⟩ ⟨9, KeyAction.left⟩ rfl).2 1 (by decide)⟩

/-- Claim C6: on timer expiry the handler pings; a failed probe closes
the connection with the Error code — whose `on_close` path logs the error
and removes the player — while a successful probe re-arms the timer for a
full `TIMEOUT_MILLIS` period. -/
theorem timeout_probe_failure_closes (id : Nat) (s : Slab) :
    on_timeout true = [Effect.ping, Effect.armTimeout TIMEOUT_MILLIS] ∧
    on_timeout false = [Effect.ping, Effect.closeConn CloseCode.error] ∧
    (on_close id CloseCode.error s).1 = LogKind.encounteredError ∧
    containsS id (on_close id CloseCode.error s).2 = false := by
  refine ⟨rfl, rfl, rfl, ?_⟩
  simp [on_close, containsS, remove_player, getS_removeS]

/-- Claim C7 counterexample: when a cancel attempt fails — a case
`on_new_timeout` explicitly tolerates — two timers are outstanding at
once, so "at most one liveness timer outstanding at any instant" fails. -/
theorem timer_two_outstanding :
    (runTimer initTimer [TEvent.arm 0 true, TEvent.arm 1 false]).pending
      = [1, 0] ∧
    (runTimer initTimer [TEvent.arm 0 true, TEvent.arm 1 false]).pending.length
      = 2 := by
  decide

/-- Claim C7 (amended): every inbound message arms a fresh liveness
timer, and along any event trace in which every cancel attempt succeeds
(and timer handles are not reused) at most one timer is outstanding at
any instant. -/
theorem timer_single_outstanding (es : List TEvent)
    (h1 : allCancelOk es = true) (h2 : (armHandles es).Nodup) :
    (runTimer initTimer es).pending.length ≤ 1 ∧
    ∀ (tm : KeyAction → PieceState → PieceState) (token : Nat)
      (parsed : Option KeyState) (players : Slab),
      Effect.armTimeout TIMEOUT_MILLIS
        ∈ (on_message tm token parsed players).2 := by
  constructor
  · have hinit : TimerInv [] initTimer := by
      refine ⟨?_, ?_, ?_⟩ <;> simp [initTimer]
    have hrun := runTimer_inv es initTimer [] hinit h1 (by simpa using h2)
    exact hrun.2.1
  · intro tm token parsed players
    cases parsed <;> simp [on_message]

/-- Witness for `timer_single_outstanding` on a concrete
arm/fire/arm trace. -/
theorem timer_single_outstanding_witness :
    allCancelOk [TEvent.arm 0 true, TEvent.fire 0, TEvent.arm 1 true]
      = true ∧
    (armHandles [TEvent.arm 0 true, TEvent.fire 0,
        TEvent.arm 1 true]).Nodup ∧
    (runTimer initTimer [TEvent.arm 0 true, TEvent.fire 0,
        TEvent.arm 1 true]).pending.length ≤ 1 :=
  ⟨by decide, by decide,
    (timer_single_outstanding
      [TEvent.arm 0 true, TEvent.fire 0, TEvent.arm 1 true]
      (by decide) (by decide)).1⟩

/-- Claim C8: opening a connection whose identity is not in the registry
inserts a PieceState whose shape comes from the `next_piece` provider and
lies in [0,7), with spawn pivot (5,5) and rotation 0, and arms a liveness
timer; the inserted piece is retrievable at the key the slab chose. -/
theorem fresh_open_allocates (id seed : Nat) (s : Slab)
    (h : getS id s = none) :
    (on_open id seed s).1 = (insertS (spawnPiece id seed) s).2 ∧
    (on_open id seed s).2.1 = ⟨id, next_piece seed⟩ ∧
    next_piece seed < 7 ∧
    (spawnPiece id seed).pivot = { x := 5, y := 5 } ∧
    (spawnPiece id seed).rotation = 0 ∧
    (on_open id seed s).2.2 = [Effect.armTimeout TIMEOUT_MILLIS] ∧
    getS (insertS (spawnPiece id seed) s).1 (on_open id seed s).1
      = some (spawnPiece id seed) := by
  have hopen : on_open id seed s
      = ((insertS (spawnPiece id seed) s).2,
         ⟨id, next_piece seed⟩, [Effect.armTimeout TIMEOUT_MILLIS]) := by
    simp [on_open, h, spawnPiece]
  rw [hopen]
  exact ⟨rfl, rfl, Nat.mod_lt seed (by norm_num), rfl, rfl, rfl,
    getS_insertS _ s⟩

/-- Witness for `fresh_open_allocates` on a one-slot registry. -/
theorem fresh_open_allocates_witness :
    getS 2 [some samplePiece] = none ∧
    next_piece 9 < 7 ∧
    (on_open 2 9 [some samplePiece]).2.1 = ⟨2, next_piece 9⟩ :=
  ⟨rfl, (fresh_open_allocates 2 9 [some samplePiece] rfl).2.2.1,
    (fresh_open_allocates 2 9 [some samplePiece] rfl).2.1⟩

/-- Claim C10: `remove_from_play` leaves the registry untouched for every
player id and state, so a piece that lands stays in the registry and a
subsequent gravity step processes it again, re-inserting its cells into
the settled board. -/
theorem remove_from_play_noop_piece_reprocessed (gs : Nat → List Bool)
    (rb : List Bool → Nat → Nat → Nat → Bool)
    (coll : PieceState → Board → Bool) (k m : Nat) (p : PieceState)
    (b : Board)
    (h1 : coll (shiftDown p) b = true)
    (h2 : coll (shiftDown p) (add_fallen_blocks gs rb p b) = true) :
    (∀ (id : Nat) (s : Slab), remove_from_play id s = s) ∧
    shift_pieces gs rb coll (onePiece k p m) b
      = (onePiece k p m, add_fallen_blocks gs rb p b) ∧
    shift_pieces gs rb coll (onePiece k p m) (add_fallen_blocks gs rb p b)
      = (onePiece k p m,
         add_fallen_blocks gs rb p (add_fallen_blocks gs rb p b)) :=
  ⟨fun _ _ => rfl,
    shift_pieces_onePiece_of_collide gs rb coll p b h1 k m,
    shift_pieces_onePiece_of_collide gs rb coll p
      (add_fallen_blocks gs rb p b) h2 k m⟩

/-- Witness for `remove_from_play_noop_piece_reprocessed` on two
consecutive gravity steps of a landed piece. -/
theorem remove_from_play_noop_witness :
    floorCollision (shiftDown samplePiece) [] = true ∧
    floorCollision (shiftDown samplePiece)
      (add_fallen_blocks sampleShapeTable sampleReadBlock samplePiece [])
      = true ∧
    shift_pieces sampleShapeTable sampleReadBlock floorCollision
        (onePiece 1 samplePiece 1)
        (add_fallen_blocks sampleShapeTable sampleReadBlock samplePiece [])
      = (onePiece 1 samplePiece 1,
         add_fallen_blocks sampleShapeTable sampleReadBlock samplePiece
           (add_fallen_blocks sampleShapeTable sampleReadBlock
             samplePiece [])) :=
  ⟨by decide, by decide,
    (remove_from_play_noop_piece_reprocessed sampleShapeTable
      sampleReadBlock floorCollision 1 1 samplePiece [] (by decide)
      (by decide)).2.2⟩
